import Mathlib

/-!
# Verification of the `toml-comment` renderer

Shallow embedding of the `toml-comment` crate (library `src/toml-comment/src/lib.rs`
and the derive macro `src/toml-comment-derive/src/lib.rs`), together with proofs
about the rendering behaviour of the generated `TomlComment` implementations.

Modelling decisions, all taken from the source:
* `toml::Value` becomes the inductive `TomlValue`.  A `Float` is represented by
  the decimal string produced by Rust's `f64::to_string()` (the `Display`
  output), since the code only ever manipulates that string; a `Datetime`
  likewise by its `to_string()` form.
* The derive macro generates, for each struct, a `_render` body obtained by a
  compile-time loop over the fields.  We model a derived struct value as a
  `StructVal` (the type-level doc lines plus the ordered field list) and the
  generated `_render` as the function `renderStruct`.
* `toml::Value::try_from(&self.field)` (serde serialization into a `toml::Value`)
  is modelled by storing the resulting `TomlValue` in the field.  serde
  serializes `Some x` exactly as `x`, so a present `Option` field stores the
  serialization of its content.  The `toml` crate's `Map` is backed by a
  `BTreeMap` (the `preserve_order` feature is off), so serializing any Rust map
  yields a table whose entries are sorted by key; `tomlOfStringMap` models this
  by sorting the entry list.
-/

/-- Model of `toml::Value`.  `float s` carries the string `f.to_string()`
produced by Rust's `Display` for the float; `datetime s` carries
`dt.to_string()`. -/
inductive TomlValue where
  | str (s : String)
  | int (i : Int)
  | float (s : String)
  | bool (b : Bool)
  | arr (elems : List TomlValue)
  | table (entries : List (String × TomlValue))
  | datetime (s : String)

/-- Rust `s.replace(c, r)` for a single-character pattern: every occurrence of
the character `c` is replaced by the string `r`. -/
def replaceChar (c : Char) (r : String) (s : String) : String :=
  String.join (s.data.map (fun d => if d = c then r else String.singleton d))

/-- The `String` arm of `fmt_value`:
`format!("\"{}\"", s.replace('\\', "\\\\").replace('"', "\\\""))`. -/
def fmtString (s : String) : String :=
  "\"" ++ replaceChar '"' "\\\"" (replaceChar '\\' "\\\\" s) ++ "\""

mutual
/-- `fmt_value` from `src/toml-comment/src/lib.rs`.  The `Float` arm checks
`s.contains('.')` on the `Display` string (here: membership of `'.'` in the
character list) and appends `".0"` when absent. -/
def fmt_value : TomlValue → String
  | .str s => fmtString s
  | .int i => toString i
  | .float s => if s.data.contains '.' then s else s ++ ".0"
  | .bool b => if b then "true" else "false"
  | .arr elems => "[" ++ String.intercalate ", " (fmtList elems) ++ "]"
  | .table entries => "\x7b " ++ String.intercalate ", " (fmtPairs entries) ++ " \x7d"
  | .datetime s => s

/-- `arr.iter().map(fmt_value).collect::<Vec<_>>()`. -/
def fmtList : List TomlValue → List String
  | [] => []
  | v :: vs => fmt_value v :: fmtList vs

/-- `t.iter().map(|(k, v)| format!("{k} = {}", fmt_value(v)))` collected. -/
def fmtPairs : List (String × TomlValue) → List String
  | [] => []
  | (k, v) :: kvs => (k ++ " = " ++ fmt_value v) :: fmtPairs kvs
end

/-- The shape-relevant part of a Rust `syn::Type`: the last path segment's
identifier and whether that segment carries angle-bracketed generic arguments
(`PathArguments::AngleBracketed`).  `other` stands for any non-path type. -/
inductive RustTy where
  | path (ident : String) (angleArgs : Bool)
  | other

/-- `LEAF_TYPES` from `src/toml-comment-derive/src/lib.rs`. -/
def LEAF_TYPES : List String :=
  ["bool", "u8", "u16", "u32", "u64", "u128", "i8", "i16", "i32", "i64", "i128",
   "f32", "f64", "usize", "isize", "String"]

/-- `is_section_type`: a path type whose last segment has no angle-bracketed
arguments and whose identifier is not in `LEAF_TYPES`. -/
def is_section_type : RustTy → Bool
  | .path id angleArgs => !angleArgs && !(LEAF_TYPES.contains id)
  | .other => false

/-- `is_option_type`: a path type whose last segment's identifier is `Option`. -/
def is_option_type : RustTy → Bool
  | .path id _ => id == "Option"
  | .other => false

mutual
/-- A value of a struct deriving `TomlComment`: the type-level doc lines
(`extract_docs(&input.attrs)`) and the named fields in declaration order. -/
inductive StructVal where
  | mk (docs : List String) (fields : List StructField)

/-- One named field: its identifier, doc lines, declared type, the
`#[toml_comment(inline)]` marker, and its runtime payload. -/
inductive StructField where
  | mk (name : String) (docs : List String) (ty : RustTy) (force_inline : Bool)
      (data : FieldData)

/-- The runtime payload of a field, as the generated code consumes it:
a nested `TomlComment` struct (section branch, used via `_render`), an
`Option` (serde serializes `Some x` exactly as `x`, so we store the
serialization of the content), or any other serde-serializable value stored
as its `toml::Value` serialization `toml::Value::try_from(&self.field)`. -/
inductive FieldData where
  | structVal (v : StructVal)
  | opt (v : Option TomlValue)
  | val (v : TomlValue)
end

/-- `emit_docs`: the macro emits one `out.push_str` per doc line, in order;
each line becomes `#<line>\n`, an empty line `#\n`. -/
def emit_docs : List String → String
  | [] => ""
  | doc :: rest => (if doc = "" then "#\n" else "#" ++ doc ++ "\n") ++ emit_docs rest

/-- The compile-time condition `!force_inline && is_section_type(&field.ty)`
selecting the section branch of the derive macro. -/
def isSectionField (f : StructField) : Bool :=
  match f with
  | .mk _ _ ty fi _ => !fi && is_section_type ty

/-- The `let section = if prefix.is_empty() { name } else { format!("{}.{}", prefix, name) }`
binding in the section branch. -/
def secName (pfx name : String) : String :=
  if pfx = "" then name else pfx ++ "." ++ name

/-- The declared identifier of a field. -/
def fieldName (f : StructField) : String :=
  match f with
  | .mk name _ _ _ _ => name

mutual
/-- The text the generated `_render` appends for one field, together with the
value of the macro's `first_section` flag after this field.  `sdne` is
`!struct_docs.is_empty()` for the enclosing struct, `pfx` the `prefix`
argument, `fs` the current `first_section` flag.  The `match data with`
fallbacks are unreachable for type-correct fields (in Rust a mismatch does not
compile: the section branch calls `_render`, the other branches serde). -/
def renderField (sdne : Bool) (pfx : String) (fs : Bool) : StructField → String × Bool
  | .mk name docs ty fi data =>
    if !fi && is_section_type ty then
      let sec := secName pfx name
      let blank := if !fs || sdne then "\n" else ""
      match data with
      | .structVal v =>
          (blank ++ emit_docs docs ++ "[" ++ sec ++ "]\n" ++ renderStruct v sec, false)
      | _ => (blank ++ emit_docs docs ++ "[" ++ sec ++ "]\n", false)
    else if is_option_type ty then
      match data with
      | .opt (some tv) => (emit_docs docs ++ name ++ " = " ++ fmt_value tv ++ "\n", fs)
      | _ => ("", fs)
    else
      match data with
      | .val tv => (emit_docs docs ++ name ++ " = " ++ fmt_value tv ++ "\n", fs)
      | _ => ("", fs)

/-- The concatenation of the per-field emissions, threading `first_section`. -/
def renderFields (sdne : Bool) (pfx : String) (fs : Bool) : List StructField → String
  | [] => ""
  | f :: rest =>
      (renderField sdne pfx fs f).1 ++
        renderFields sdne pfx (renderField sdne pfx fs f).2 rest

/-- The generated `_render(&self, out, prefix)` body: the struct's own doc
lines first, then every field in declaration order with `first_section`
initially `true`. -/
def renderStruct : StructVal → String → String
  | .mk docs fields, pfx =>
      emit_docs docs ++ renderFields (!docs.isEmpty) pfx true fields
end

/-- The generated `to_commented_toml`: render into an empty buffer with an
empty prefix. -/
def to_commented_toml (v : StructVal) : String := renderStruct v ""

/-- The generated `default_toml`: `Self::default().to_commented_toml()`,
given the type's default value. -/
def default_toml (defaultVal : StructVal) : String := to_commented_toml defaultVal

/-- Rust's `Ord` for strings: lexicographic comparison.  (Rust compares the
UTF-8 bytes; byte-lexicographic order on UTF-8 coincides with
code-point-lexicographic order, so comparing `Char`s is faithful.) -/
def charsLe : List Char → List Char → Bool
  | [], _ => true
  | _ :: _, [] => false
  | c :: cs, d :: ds => if c < d then true else if d < c then false else charsLe cs ds

/-- The key order of `BTreeMap<String, _>`, lifted to map entries. -/
def entryLe (a b : String × TomlValue) : Bool :=
  charsLe a.1.data b.1.data

/-- Insertion into a key-sorted entry list (how a `BTreeMap`'s iteration
order arises). -/
def insertEntry (x : String × TomlValue) :
    List (String × TomlValue) → List (String × TomlValue)
  | [] => [x]
  | y :: ys => if entryLe x y then x :: y :: ys else y :: insertEntry x ys

/-- Serialization of a Rust map keyed by strings into a `toml::Value`: the
`toml` crate's `Map` is `BTreeMap`-backed (no `preserve_order` feature), so
whatever order serde feeds the entries in, the resulting table holds them
sorted by key. -/
def sortEntries : List (String × TomlValue) → List (String × TomlValue)
  | [] => []
  | x :: xs => insertEntry x (sortEntries xs)

/-- `toml::Value::try_from(&map)` for a map keyed by strings: a table with the
entries sorted by key. -/
def tomlOfStringMap (l : List (String × TomlValue)) : TomlValue :=
  .table (sortEntries l)

/-- A string is empty or ends in a newline character. -/
def NlTerm (s : String) : Prop := s = "" ∨ ∃ t, s = t ++ "\n"

/-- A string begins with a newline character, i.e. its first emitted line is
blank. -/
def startsWithNl (s : String) : Prop := s.data.head? = some '\n'

/-- Model of the `WithBTreeMap` fixture from `tests/integration.rs`: one field
`settings : BTreeMap<String, String>` documented `Sorted settings`, holding
`alpha → "first"`, `beta → "second"`. -/
def withBTreeMapVal : StructVal :=
  .mk [] [.mk "settings" [" Sorted settings"] (.path "BTreeMap" true) false
    (.val (tomlOfStringMap [("alpha", .str "first"), ("beta", .str "second")]))]

/-- Model of the `WithEmptyMap` fixture from `tests/integration.rs`: one field
`tags : BTreeMap<String, String>` documented `Tags for the resource`, empty. -/
def withEmptyMapVal : StructVal :=
  .mk [] [.mk "tags" [" Tags for the resource"] (.path "BTreeMap" true) false
    (.val (tomlOfStringMap []))]

/-- A one-field struct `{ port: u16 }` holding `8080`, used as a section. -/
def innerPortStruct : StructVal :=
  .mk [] [.mk "port" [] (.path "u16" false) false (.val (.int 8080))]

/-- A struct whose single field is `server : Option<Inner>` holding
`Some(Inner { port: 8080 })`; serde serializes the content as the table
`{ port = 8080 }`. -/
def optionServerStruct : StructVal :=
  .mk [] [.mk "server" [] (.path "Option" true) false
    (.opt (some (.table [("port", .int 8080)])))]

/-- The same struct with the field unwrapped: `server : Inner` holding
`Inner { port: 8080 }`. -/
def plainServerStruct : StructVal :=
  .mk [] [.mk "server" [] (.path "Inner" false) false (.structVal innerPortStruct)]

/-! ## Helper lemmas -/

theorem renderField_section (sdne : Bool) (pfx : String) (fs : Bool) (name : String)
    (docs : List String) (ty : RustTy) (v : StructVal) (h : is_section_type ty = true) :
    renderField sdne pfx fs (.mk name docs ty false (.structVal v)) =
      ((if !fs || sdne then "\n" else "") ++ emit_docs docs ++ "[" ++ secName pfx name
        ++ "]\n" ++ renderStruct v (secName pfx name), false) := by
  simp [renderField, h]

theorem renderField_option_some (sdne : Bool) (pfx : String) (fs : Bool) (name : String)
    (docs : List String) (ty : RustTy) (fi : Bool) (tv : TomlValue)
    (h1 : (!fi && is_section_type ty) = false) (h2 : is_option_type ty = true) :
    renderField sdne pfx fs (.mk name docs ty fi (.opt (some tv))) =
      (emit_docs docs ++ name ++ " = " ++ fmt_value tv ++ "\n", fs) := by
  simp [renderField, h1, h2]

theorem renderField_option_none (sdne : Bool) (pfx : String) (fs : Bool) (name : String)
    (docs : List String) (ty : RustTy) (fi : Bool)
    (h1 : (!fi && is_section_type ty) = false) (h2 : is_option_type ty = true) :
    renderField sdne pfx fs (.mk name docs ty fi (.opt none)) = ("", fs) := by
  simp [renderField, h1, h2]

theorem renderField_leaf (sdne : Bool) (pfx : String) (fs : Bool) (name : String)
    (docs : List String) (ty : RustTy) (fi : Bool) (tv : TomlValue)
    (h1 : (!fi && is_section_type ty) = false) (h2 : is_option_type ty = false) :
    renderField sdne pfx fs (.mk name docs ty fi (.val tv)) =
      (emit_docs docs ++ name ++ " = " ++ fmt_value tv ++ "\n", fs) := by
  simp [renderField, h1, h2]

theorem renderField_snd (sdne : Bool) (pfx : String) (fs : Bool) (f : StructField) :
    (renderField sdne pfx fs f).2 = (fs && !isSectionField f) := by
  cases f with
  | mk name docs ty fi data =>
    by_cases h1 : (!fi && is_section_type ty) = true
    · cases data <;> simp [renderField, isSectionField, h1]
    · have h1' : (!fi && is_section_type ty) = false := by simpa using h1
      by_cases h2 : is_option_type ty = true
      · cases data with
        | structVal v => simp [renderField, isSectionField, h1', h2]
        | opt v => cases v <;> simp [renderField, isSectionField, h1', h2]
        | val v => simp [renderField, isSectionField, h1', h2]
      · have h2' : is_option_type ty = false := by simpa using h2
        cases data with
        | structVal v => simp [renderField, isSectionField, h1', h2']
        | opt v => cases v <;> simp [renderField, isSectionField, h1', h2']
        | val v => simp [renderField, isSectionField, h1', h2']

theorem renderFields_append (sdne : Bool) (pfx : String) (fs : Bool)
    (xs ys : List StructField) :
    renderFields sdne pfx fs (xs ++ ys) =
      renderFields sdne pfx fs xs ++
        renderFields sdne pfx (fs && xs.all (fun f => !isSectionField f)) ys := by
  induction xs generalizing fs with
  | nil => simp [renderFields]
  | cons f xs ih =>
    simp only [List.cons_append, renderFields, renderField_snd, List.all_cons, List.append_eq]
    rw [ih, String.append_assoc, Bool.and_assoc]

theorem nlTerm_append {a b : String} (ha : NlTerm a) (hb : NlTerm b) : NlTerm (a ++ b) := by
  rcases hb with hb | ⟨t, rfl⟩
  · rw [hb, String.append_empty]; exact ha
  · exact .inr ⟨a ++ t, (String.append_assoc a t "\n").symm⟩

theorem nlTerm_append_right (a : String) {b : String} (hb : ∃ t, b = t ++ "\n") :
    NlTerm (a ++ b) := by
  rcases hb with ⟨t, rfl⟩
  exact .inr ⟨a ++ t, (String.append_assoc a t "\n").symm⟩

theorem nlTerm_emit_docs (docs : List String) : NlTerm (emit_docs docs) := by
  induction docs with
  | nil => exact .inl rfl
  | cons doc rest ih =>
    refine nlTerm_append ?_ ih
    by_cases h : doc = ""
    · exact .inr ⟨"#", by simp [h]⟩
    · exact .inr ⟨"#" ++ doc, by simp [h]⟩

mutual
theorem nlTerm_renderField (sdne : Bool) (pfx : String) (fs : Bool) (f : StructField) :
    NlTerm (renderField sdne pfx fs f).1 := by
  cases f with
  | mk name docs ty fi data =>
    by_cases h1 : (!fi && is_section_type ty) = true
    · cases data with
      | structVal v =>
        have hrec := nlTerm_renderStruct v (secName pfx name)
        simp only [renderField, h1, if_true]
        exact nlTerm_append (nlTerm_append_right _ ⟨"]", by decide⟩) hrec
      | opt v =>
        simp only [renderField, h1, if_true]
        exact nlTerm_append_right _ ⟨"]", by decide⟩
      | val v =>
        simp only [renderField, h1, if_true]
        exact nlTerm_append_right _ ⟨"]", by decide⟩
    · have h1' : (!fi && is_section_type ty) = false := by simpa using h1
      by_cases h2 : is_option_type ty = true
      · cases data with
        | structVal v => simp [renderField, h1', h2, NlTerm]
        | opt v =>
          cases v with
          | none => simp [renderField, h1', h2, NlTerm]
          | some tv =>
            rw [renderField_option_some sdne pfx fs name docs ty fi tv h1' h2]
            exact .inr ⟨_, rfl⟩
        | val v => simp [renderField, h1', h2, NlTerm]
      · have h2' : is_option_type ty = false := by simpa using h2
        cases data with
        | structVal v => simp [renderField, h1', h2', NlTerm]
        | opt v => cases v <;> simp [renderField, h1', h2', NlTerm]
        | val tv =>
          rw [renderField_leaf sdne pfx fs name docs ty fi tv h1' h2']
          exact .inr ⟨_, rfl⟩

theorem nlTerm_renderFields (sdne : Bool) (pfx : String) (fs : Bool)
    (l : List StructField) : NlTerm (renderFields sdne pfx fs l) := by
  cases l with
  | nil => exact .inl rfl
  | cons f rest =>
    have h1 := nlTerm_renderField sdne pfx fs f
    have h2 := nlTerm_renderFields sdne pfx (renderField sdne pfx fs f).2 rest
    simpa only [renderFields] using nlTerm_append h1 h2

theorem nlTerm_renderStruct (v : StructVal) (pfx : String) :
    NlTerm (renderStruct v pfx) := by
  cases v with
  | mk docs fields =>
    have h := nlTerm_renderFields (!docs.isEmpty) pfx true fields
    simpa only [renderStruct] using nlTerm_append (nlTerm_emit_docs docs) h
end

theorem head?_or_append (l₁ l₂ : List Char) : (l₁ ++ l₂).head? = l₁.head?.or l₂.head? := by
  cases l₁ <;> simp

theorem emit_docs_firstChar (docs : List String) :
    emit_docs docs = "" ∨ (emit_docs docs).data.head? = some '#' := by
  cases docs with
  | nil => exact .inl rfl
  | cons doc rest =>
    right
    show ((if doc = "" then "#\n" else "#" ++ doc ++ "\n") ++ emit_docs rest).data.head?
      = some '#'
    by_cases h : doc = ""
    · rw [if_pos h, String.data_append]; rfl
    · rw [if_neg h, String.data_append, String.data_append, String.data_append]; rfl

theorem all_not_eq_not_any (l : List StructField) :
    l.all (fun f => !isSectionField f) = !l.any isSectionField := by
  induction l with
  | nil => rfl
  | cons f rest ih => simp [List.all_cons, List.any_cons, ih]

/-- The fragment a section-shaped field emits: an optional single blank line,
then a remainder that does not itself begin with a blank line; the
`first_section` flag always comes back `false`. -/
theorem renderField_section_frag (sdne : Bool) (pfx : String) (fs : Bool)
    (f : StructField) (hf : isSectionField f = true) :
    ∃ r, (renderField sdne pfx fs f).1 = (if !fs || sdne then "\n" else "") ++ r ∧
      ¬ startsWithNl r ∧ (renderField sdne pfx fs f).2 = false := by
  cases f with
  | mk name docs ty fi data =>
    have h1 : (!fi && is_section_type ty) = true := by simpa [isSectionField] using hf
    have hhead : ∀ tail : String,
        ¬ startsWithNl (emit_docs docs ++ "[" ++ secName pfx name ++ tail) := by
      intro tail hcon
      rw [startsWithNl, String.data_append, String.data_append, String.data_append,
        head?_or_append, head?_or_append, head?_or_append] at hcon
      rcases emit_docs_firstChar docs with hd | hd
      · rw [hd] at hcon
        simp at hcon
      · rw [hd] at hcon
        simp at hcon
    cases data with
    | structVal v =>
      refine ⟨emit_docs docs ++ "[" ++ secName pfx name ++ ("]\n" ++ renderStruct v (secName pfx name)), ?_, ?_, ?_⟩
      · simp only [renderField, h1, if_true]
        simp only [String.append_assoc]
      · exact hhead _
      · simp [renderField, h1]
    | opt v =>
      refine ⟨emit_docs docs ++ "[" ++ secName pfx name ++ "]\n", ?_, hhead _, ?_⟩
      · simp only [renderField, h1, if_true]
        simp only [String.append_assoc]
      · simp [renderField, h1]
    | val v =>
      refine ⟨emit_docs docs ++ "[" ++ secName pfx name ++ "]\n", ?_, hhead _, ?_⟩
      · simp only [renderField, h1, if_true]
        simp only [String.append_assoc]
      · simp [renderField, h1]

/-- A leaf / inline / option / map field (anything not shaped as a section)
never begins its emission with a blank line, provided its identifier does not
begin with a newline (Rust identifiers never do). -/
theorem renderField_nonsection_not_blank (sdne : Bool) (pfx : String) (fs : Bool)
    (f : StructField) (hf : isSectionField f = false)
    (hname : (fieldName f).data.head? ≠ some '\n') :
    ¬ startsWithNl (renderField sdne pfx fs f).1 := by
  cases f with
  | mk name docs ty fi data =>
    have h1 : (!fi && is_section_type ty) = false := by simpa [isSectionField] using hf
    have hname' : name.data.head? ≠ some '\n' := hname
    have hkey : ∀ tv : TomlValue,
        ¬ startsWithNl (emit_docs docs ++ name ++ " = " ++ fmt_value tv ++ "\n") := by
      intro tv hcon
      rw [startsWithNl] at hcon
      simp only [String.data_append, head?_or_append] at hcon
      rcases emit_docs_firstChar docs with hd | hd
      · rw [hd] at hcon
        cases hn : name.data with
        | nil => rw [hn] at hcon; simp at hcon
        | cons c t =>
          rw [hn] at hcon
          simp at hcon
          exact hname' (by rw [hn, hcon]; rfl)
      · rw [hd] at hcon
        simp at hcon
    by_cases h2 : is_option_type ty = true
    · cases data with
      | structVal v => simp [renderField, h1, h2, startsWithNl]
      | opt v =>
        cases v with
        | none => simp [renderField, h1, h2, startsWithNl]
        | some tv =>
          rw [renderField_option_some sdne pfx fs name docs ty fi tv h1 h2]
          exact hkey tv
      | val v => simp [renderField, h1, h2, startsWithNl]
    · have h2' : is_option_type ty = false := by simpa using h2
      cases data with
      | structVal v => simp [renderField, h1, h2', startsWithNl]
      | opt v => cases v <;> simp [renderField, h1, h2', startsWithNl]
      | val tv =>
        rw [renderField_leaf sdne pfx fs name docs ty fi tv h1 h2']
        exact hkey tv

theorem charsLe_total (a : List Char) : ∀ b, charsLe a b = true ∨ charsLe b a = true := by
  induction a with
  | nil => exact fun b => .inl rfl
  | cons x xs ih =>
    intro b
    cases b with
    | nil => exact .inr rfl
    | cons y ys =>
      rcases lt_trichotomy x y with h | h | h
      · left; simp [charsLe, h]
      · subst h
        rcases ih ys with h' | h'
        · left; simp [charsLe, lt_irrefl, h']
        · right; simp [charsLe, lt_irrefl, h']
      · right; simp [charsLe, h]

theorem charsLe_trans (a : List Char) :
    ∀ b c, charsLe a b = true → charsLe b c = true → charsLe a c = true := by
  induction a with
  | nil => exact fun _ _ _ _ => rfl
  | cons x xs ih =>
    intro b c hab hbc
    cases b with
    | nil => simp [charsLe] at hab
    | cons y ys =>
      cases c with
      | nil => simp [charsLe] at hbc
      | cons z zs =>
        rcases lt_trichotomy x y with hxy | hxy | hxy
        · rcases lt_trichotomy y z with hyz | hyz | hyz
          · simp [charsLe, lt_trans hxy hyz]
          · subst hyz; simp [charsLe, hxy]
          · exfalso
            have h1 : ¬ y < z := lt_asymm hyz
            simp [charsLe, h1, hyz] at hbc
        · subst hxy
          rcases lt_trichotomy x z with hxz | hxz | hxz
          · simp [charsLe, hxz]
          · subst hxz
            have hab' : charsLe xs ys = true := by simpa [charsLe, lt_irrefl] using hab
            have hbc' : charsLe ys zs = true := by simpa [charsLe, lt_irrefl] using hbc
            simpa [charsLe, lt_irrefl] using ih ys zs hab' hbc'
          · exfalso
            have h1 : ¬ x < z := lt_asymm hxz
            simp [charsLe, h1, hxz] at hbc
        · exfalso
          have h1 : ¬ x < y := lt_asymm hxy
          simp [charsLe, h1, hxy] at hab

theorem charsLe_antisymm (a : List Char) :
    ∀ b, charsLe a b = true → charsLe b a = true → a = b := by
  induction a with
  | nil =>
    intro b _ hba
    cases b with
    | nil => rfl
    | cons d ds => simp [charsLe] at hba
  | cons x xs ih =>
    intro b hab hba
    cases b with
    | nil => simp [charsLe] at hab
    | cons y ys =>
      rcases lt_trichotomy x y with h | h | h
      · exfalso
        have h1 : ¬ y < x := lt_asymm h
        simp [charsLe, h1, h] at hba
      · subst h
        have hab' : charsLe xs ys = true := by simpa [charsLe, lt_irrefl] using hab
        have hba' : charsLe ys xs = true := by simpa [charsLe, lt_irrefl] using hba
        rw [ih ys hab' hba']
      · exfalso
        have h1 : ¬ x < y := lt_asymm h
        simp [charsLe, h1, h] at hab

theorem insertEntry_eq (x : String × TomlValue) (l : List (String × TomlValue)) :
    insertEntry x l = List.orderedInsert (fun a b => entryLe a b = true) x l := by
  induction l with
  | nil => rfl
  | cons y ys ih =>
    simp only [insertEntry, List.orderedInsert]
    by_cases h : entryLe x y = true
    · simp [h]
    · simp [h, ih]

theorem sortEntries_eq (l : List (String × TomlValue)) :
    sortEntries l = List.insertionSort (fun a b => entryLe a b = true) l := by
  induction l with
  | nil => rfl
  | cons x xs ih => simp only [sortEntries, List.insertionSort, ih, insertEntry_eq]

/-- Sorting map entries by key is order-independent: any two iteration orders
of the same map (entry lists that are permutations of each other, with the
keys pairwise distinct as in any map) serialize to the same sorted list. -/
theorem sortEntries_eq_of_perm (l₁ l₂ : List (String × TomlValue))
    (hp : List.Perm l₁ l₂) (hnd : (l₁.map Prod.fst).Nodup) :
    sortEntries l₁ = sortEntries l₂ := by
  haveI instTotal : IsTotal (String × TomlValue) (fun a b => entryLe a b = true) :=
    ⟨fun a b => charsLe_total a.1.data b.1.data⟩
  haveI instTrans : IsTrans (String × TomlValue) (fun a b => entryLe a b = true) :=
    ⟨fun a b c hab hbc => charsLe_trans a.1.data b.1.data c.1.data hab hbc⟩
  haveI instAntisymm : IsAntisymm (String × TomlValue)
      (fun a b => entryLe a b = true ∧ a.1 ≠ b.1) :=
    ⟨fun a b hab hba => absurd (String.ext (charsLe_antisymm _ _ hab.1 hba.1)) hab.2⟩
  have hperm₁ : List.Perm (sortEntries l₁) l₁ := by
    rw [sortEntries_eq]; exact List.perm_insertionSort _ _
  have hperm₂ : List.Perm (sortEntries l₂) l₂ := by
    rw [sortEntries_eq]; exact List.perm_insertionSort _ _
  have hs₁ : (sortEntries l₁).Sorted (fun a b => entryLe a b = true) := by
    rw [sortEntries_eq]; exact List.sorted_insertionSort _ _
  have hs₂ : (sortEntries l₂).Sorted (fun a b => entryLe a b = true) := by
    rw [sortEntries_eq]; exact List.sorted_insertionSort _ _
  have hnd₁ : ((sortEntries l₁).map Prod.fst).Nodup :=
    ((hperm₁.map Prod.fst).symm).nodup hnd
  have hnd₂ : ((sortEntries l₂).map Prod.fst).Nodup :=
    ((hperm₂.map Prod.fst).symm).nodup ((hp.map Prod.fst).nodup hnd)
  have hlt₁ : (sortEntries l₁).Pairwise (fun a b => entryLe a b = true ∧ a.1 ≠ b.1) :=
    List.Pairwise.and hs₁ (List.pairwise_map.mp hnd₁)
  have hlt₂ : (sortEntries l₂).Pairwise (fun a b => entryLe a b = true ∧ a.1 ≠ b.1) :=
    List.Pairwise.and hs₂ (List.pairwise_map.mp hnd₂)
  exact List.eq_of_perm_of_sorted (hperm₁.trans (hp.trans hperm₂.symm)) hlt₁ hlt₂

/-! ## Validation of the embedding against the repository's integration tests -/

/-- `float_formatting`: a float whose `Display` string is `"1"` formats as
`1.0`, and `0.75` stays `0.75`. -/
theorem fixture_float_formatting :
    fmt_value (.float "1") = "1.0" ∧ fmt_value (.float "0.75") = "0.75" := by decide

/-- The `Table` arm of `fmt_value` produces an inline table; an empty table
gives `{  }`. -/
theorem fixture_fmt_table :
    fmt_value (.table [("alpha", .str "first"), ("beta", .str "second")])
        = "\x7b alpha = \"first\", beta = \"second\" \x7d" ∧
    fmt_value (.table []) = "\x7b  \x7d" := by decide

/-- The `String` arm escapes only backslash and double quote. -/
theorem fixture_fmt_string_escaping :
    fmt_value (.str "a\\b\"c") = "\"a\\\\b\\\"c\"" := by decide

/-- The `basic_struct` test of `tests/integration.rs`. -/
theorem fixture_basic_struct :
    to_commented_toml (.mk [" Application settings"]
        [.mk "name" [" The application name"] (.path "String" false) false
           (.val (.str "myapp")),
         .mk "debug" [" Whether debug mode is enabled"] (.path "bool" false) false
           (.val (.bool false)),
         .mk "max_retries" [" Maximum retry count"] (.path "u32" false) false
           (.val (.int 3))])
      = "# Application settings\n# The application name\nname = \"myapp\"\n# Whether debug mode is enabled\ndebug = false\n# Maximum retry count\nmax_retries = 3\n" := by
  decide

/-- The `nested_struct` test: struct docs, blank line, section header, nested
fields. -/
theorem fixture_nested_struct :
    to_commented_toml (.mk [" Root config"]
        [.mk "server" [] (.path "ServerConfig" false) false (.structVal (.mk []
          [.mk "port" [" Port to listen on"] (.path "u16" false) false (.val (.int 8080)),
           .mk "host" [" Bind address"] (.path "String" false) false
             (.val (.str "127.0.0.1"))]))])
      = "# Root config\n\n[server]\n# Port to listen on\nport = 8080\n# Bind address\nhost = \"127.0.0.1\"\n" := by
  decide

/-- The `multiple_sections_separated_by_blank_line` test. -/
theorem fixture_multiple_sections :
    to_commented_toml (.mk [" Multi-section config"]
        [.mk "logging" [] (.path "LoggingConfig" false) false (.structVal (.mk []
          [.mk "level" [" Log level"] (.path "String" false) false (.val (.str "info"))])),
         .mk "database" [] (.path "DatabaseConfig" false) false (.structVal (.mk []
          [.mk "url" [" Connection URL"] (.path "String" false) false
             (.val (.str "sqlite://data.db"))]))])
      = "# Multi-section config\n\n[logging]\n# Log level\nlevel = \"info\"\n\n[database]\n# Connection URL\nurl = \"sqlite://data.db\"\n" := by
  decide

/-- The `option_none_omitted` and `option_some_included` tests. -/
theorem fixture_option_fields :
    to_commented_toml (.mk []
        [.mk "name" [" Always present"] (.path "String" false) false (.val (.str "hello")),
         .mk "extra" [" Sometimes present"] (.path "Option" true) false (.opt none)])
      = "# Always present\nname = \"hello\"\n" ∧
    to_commented_toml (.mk []
        [.mk "name" [" Always present"] (.path "String" false) false (.val (.str "hello")),
         .mk "extra" [" Sometimes present"] (.path "Option" true) false
           (.opt (some (.str "world")))])
      = "# Always present\nname = \"hello\"\n# Sometimes present\nextra = \"world\"\n" := by
  decide

/-- The `vec_field` test: a `Vec<String>` is a leaf rendered as an inline
array. -/
theorem fixture_vec_field :
    to_commented_toml (.mk []
        [.mk "origins" [" Allowed origins"] (.path "Vec" true) false
           (.val (.arr [.str "localhost", .str "example.com"]))])
      = "# Allowed origins\norigins = [\"localhost\", \"example.com\"]\n" := by
  decide

/-- The `enum_field_inline` test: a force-inline enum field renders as a
leaf, and the struct continues normally. -/
theorem fixture_enum_field_inline :
    to_commented_toml (.mk []
        [.mk "level" [" The log level"] (.path "LogLevel" false) true (.val (.str "Info")),
         .mk "name" [" App name"] (.path "String" false) false (.val (.str "app"))])
      = "# The log level\nlevel = \"Info\"\n# App name\nname = \"app\"\n" := by
  decide

/-! ## Claim theorems -/

/-- C1: evaluation of the code on the repository's own `WithBTreeMap` fixture.
The derive macro has no map branch: a `BTreeMap<String, String>` field falls
into the leaf fallback and is emitted as a single
`settings = { alpha = "first", beta = "second" }` inline-table line carrying
the field name, not as one `<key> = <value>` line per entry as the claim (and
the repository's own test `btreemap_deterministic_order`) requires. -/
theorem c1_map_field_rendered_as_inline_table :
    to_commented_toml withBTreeMapVal
        = "# Sorted settings\nsettings = \x7b alpha = \"first\", beta = \"second\" \x7d\n" ∧
    to_commented_toml withBTreeMapVal
        ≠ "# Sorted settings\nalpha = \"first\"\nbeta = \"second\"\n" := by
  decide

/-- C2: evaluation of the code on the repository's own `WithEmptyMap` fixture.
An empty map field still goes through the leaf fallback: the documentation
block and a `tags = {  }` line are emitted, not nothing as the claim (and the
repository's own test `empty_map_no_output`) requires. -/
theorem c2_empty_map_still_emits :
    to_commented_toml withEmptyMapVal = "# Tags for the resource\ntags = \x7b  \x7d\n" ∧
    to_commented_toml withEmptyMapVal ≠ "" := by
  decide

/-- C7: the `Float` arm of `fmt_value` returns the `Display` string unchanged
when it contains a decimal point and appends a literal `.0` otherwise; the
float value `1` (whose `Display` string is `"1"`) formats as `1.0`; and the
formatted text of every float contains a `'.'`. -/
theorem c7_float_formatting (s : String) :
    fmt_value (.float s) = (if s.data.contains '.' then s else s ++ ".0") ∧
    fmt_value (.float "1") = "1.0" ∧
    (fmt_value (.float s)).data.contains '.' = true := by
  refine ⟨rfl, by decide, ?_⟩
  cases h : s.data.contains '.' with
  | true =>
    have hm : ('.' : Char) ∈ s.data := by simpa [List.contains] using h
    have he : fmt_value (.float s) = s := by simp [fmt_value, hm]
    rw [he, h]
  | false =>
    have hm : ('.' : Char) ∉ s.data := by simpa [List.contains] using h
    have he : fmt_value (.float s) = s ++ ".0" := by simp [fmt_value, hm]
    rw [he, String.data_append]
    have hmem : ('.' : Char) ∈ s.data ++ ".0".data :=
      List.mem_append.mpr (Or.inr (by decide))
    simp [List.contains, hmem]

/-- C10: the output of `to_commented_toml` is empty or ends with a newline
character, because every emission unit is appended with a trailing newline. -/
theorem c10_output_empty_or_newline_terminated (v : StructVal) :
    to_commented_toml v = "" ∨ ∃ t, to_commented_toml v = t ++ "\n" := by
  simpa [to_commented_toml, NlTerm] using nlTerm_renderStruct v ""

/-- C3 counterexample: a present `Option` field is NOT rendered the way the
unwrapped field would be when the inner type is section-shaped.  The Option
branch of the derive macro always emits a single `name = <value>` leaf line
(here an inline table), while the unwrapped field goes through the section
branch and emits a `[path]` header with nested lines. -/
theorem c3_counterexample :
    to_commented_toml optionServerStruct = "server = \x7b port = 8080 \x7d\n" ∧
    to_commented_toml plainServerStruct = "[server]\nport = 8080\n" ∧
    to_commented_toml optionServerStruct ≠ to_commented_toml plainServerStruct := by
  decide

/-- C3 (amended): a present `Option` field renders byte-identically to the
unwrapped non-optional field at the same position, provided the unwrapped
type is not classified as a section (it reaches the leaf fallback): both emit
`docs` then `name = <formatted serialization>` and leave `first_section`
untouched.  (`FieldData.opt (some tv)` and `FieldData.val tv` carry the same
serialization because serde serializes `Some x` exactly as `x`.) -/
theorem c3_optional_present_leaf_equiv (docs : List String) (pre post : List StructField)
    (name : String) (fdocs : List String) (tv : TomlValue) (ty : RustTy) (fi : Bool)
    (pfx : String) (hsec : (!fi && is_section_type ty) = false)
    (hopt : is_option_type ty = false) :
    renderStruct (.mk docs
        (pre ++ .mk name fdocs (.path "Option" true) false (.opt (some tv)) :: post)) pfx
      = renderStruct (.mk docs (pre ++ .mk name fdocs ty fi (.val tv) :: post)) pfx := by
  have hmid₁ := renderField_option_some (!docs.isEmpty) pfx
      (true && pre.all (fun f => !isSectionField f)) name fdocs (.path "Option" true) false tv
      (by simp [is_section_type]) (by decide)
  have hmid₂ := renderField_leaf (!docs.isEmpty) pfx
      (true && pre.all (fun f => !isSectionField f)) name fdocs ty fi tv hsec hopt
  simp only [renderStruct, renderFields_append, renderFields, hmid₁, hmid₂]

/-- C3 witness: instantiation at `extra : Option<String> = Some("world")`
against `extra : String = "world"`. -/
theorem c3_witness :
    renderStruct (.mk []
        ([] ++ .mk "extra" [" Sometimes present"] (.path "Option" true) false
          (.opt (some (.str "world"))) :: []))
        ""
      = renderStruct (.mk []
          ([] ++ .mk "extra" [" Sometimes present"] (.path "String" false) false
            (.val (.str "world")) :: []))
          "" :=
  c3_optional_present_leaf_equiv [] [] [] "extra" [" Sometimes present"]
    (.str "world") (.path "String" false) false "" (by decide) (by decide)

/-- C4: blank-line placement.  (1) A section-shaped field's emission starts
with exactly one blank line iff this is not the first section at the level
(`first_section` is false) or the enclosing struct's doc lines are non-empty,
and the remainder starts no further blank line; (2) a non-section field's
emission never starts with a blank line; (3) the `first_section` flag handed
to the remaining fields is exactly "no section-shaped field occurred earlier";
(4) a struct body renders its own docs and then its fields with
`first_section = true` and `sdne = !struct_docs.is_empty()`. -/
theorem c4_blank_line_rule :
    (∀ (sdne : Bool) (pfx : String) (fs : Bool) (f : StructField),
      isSectionField f = true →
      ∃ r, (renderField sdne pfx fs f).1 = (if !fs || sdne then "\n" else "") ++ r ∧
        ¬ startsWithNl r) ∧
    (∀ (sdne : Bool) (pfx : String) (fs : Bool) (f : StructField),
      isSectionField f = false → (fieldName f).data.head? ≠ some '\n' →
      ¬ startsWithNl (renderField sdne pfx fs f).1) ∧
    (∀ (sdne : Bool) (pfx : String) (pre rest : List StructField),
      renderFields sdne pfx true (pre ++ rest) =
        renderFields sdne pfx true pre ++
          renderFields sdne pfx (!pre.any isSectionField) rest) ∧
    (∀ (docs : List String) (fields : List StructField) (pfx : String),
      renderStruct (.mk docs fields) pfx =
        emit_docs docs ++ renderFields (!docs.isEmpty) pfx true fields) := by
  refine ⟨?_, ?_, ?_, ?_⟩
  · intro sdne pfx fs f hf
    obtain ⟨r, h1, h2, _⟩ := renderField_section_frag sdne pfx fs f hf
    exact ⟨r, h1, h2⟩
  · exact renderField_nonsection_not_blank
  · intro sdne pfx pre rest
    rw [renderFields_append, Bool.true_and, all_not_eq_not_any]
  · intro docs fields pfx
    rfl

/-- C4 witness: a section field after struct docs gets exactly one blank line
(at `fs = true`, `sdne = true`), and a leaf field never starts with one. -/
theorem c4_witness :
    (∃ r, (renderField true "" true (.mk "server" [] (.path "ServerConfig" false) false
        (.structVal innerPortStruct))).1 = "\n" ++ r ∧ ¬ startsWithNl r) ∧
    ¬ startsWithNl (renderField false "" true (.mk "name" [" Doc"] (.path "String" false)
        false (.val (.str "x")))).1 := by
  constructor
  · have h := c4_blank_line_rule.1 true "" true
      (.mk "server" [] (.path "ServerConfig" false) false (.structVal innerPortStruct))
      (by decide)
    simpa using h
  · exact c4_blank_line_rule.2.1 false "" true _ (by decide) (by decide)

/-- C5: an absent `Option` field is fully invisible — the struct renders
byte-identically to the same struct with the field deleted (no comment, no
assignment line, no blank line). -/
theorem c5_optional_absent_invisible (docs : List String) (pre post : List StructField)
    (name : String) (fdocs : List String) (fi : Bool) (pfx : String) :
    renderStruct (.mk docs
        (pre ++ .mk name fdocs (.path "Option" true) fi (.opt none) :: post)) pfx
      = renderStruct (.mk docs (pre ++ post)) pfx := by
  have hmid := renderField_option_none (!docs.isEmpty) pfx
      (true && pre.all (fun f => !isSectionField f)) name fdocs (.path "Option" true) fi
      (by simp [is_section_type]) (by decide)
  simp only [renderStruct, renderFields_append, renderFields, hmid, String.empty_append]

/-- C6: a field carrying `#[toml_comment(inline)]` never reaches the section
branch: whatever its declared (non-`Option`) type, it renders as its doc block
followed by a single `name = <formatted value>` leaf line, with no `[path]`
header and no recursive expansion. -/
theorem c6_force_inline_renders_leaf (sdne : Bool) (pfx : String) (fs : Bool)
    (name : String) (docs : List String) (ty : RustTy) (tv : TomlValue)
    (hopt : is_option_type ty = false) :
    renderField sdne pfx fs (.mk name docs ty true (.val tv)) =
      (emit_docs docs ++ name ++ " = " ++ fmt_value tv ++ "\n", fs) :=
  renderField_leaf sdne pfx fs name docs ty true tv (by simp) hopt

/-- C6 witness: the `WithEnum` fixture's field `level : LogLevel` (a unit
enum serializing to the string `"Info"`) marked force-inline renders as
`level = "Info"`, not as a section. -/
theorem c6_witness :
    renderField false "" true (.mk "level" [" The log level"] (.path "LogLevel" false) true
        (.val (.str "Info"))) = ("# The log level\nlevel = \"Info\"\n", true) := by
  rw [c6_force_inline_renders_leaf false "" true "level" [" The log level"]
      (.path "LogLevel" false) (.str "Info") (by decide)]
  decide

/-- C8: rendering is deterministic: `to_commented_toml` and `default_toml` are
pure functions of the value, and a map field's serialized entry order does not
depend on the iteration order serde saw — any permutation of the entry list
(with the distinct keys of a map) serializes to the same table. -/
theorem c8_deterministic_rendering :
    (∀ v : StructVal, to_commented_toml v = to_commented_toml v) ∧
    (∀ d : StructVal, default_toml d = to_commented_toml d) ∧
    (∀ l₁ l₂ : List (String × TomlValue), List.Perm l₁ l₂ → (l₁.map Prod.fst).Nodup →
      tomlOfStringMap l₁ = tomlOfStringMap l₂) := by
  refine ⟨fun v => rfl, fun d => rfl, fun l₁ l₂ hp hnd => ?_⟩
  simp only [tomlOfStringMap, sortEntries_eq_of_perm l₁ l₂ hp hnd]

/-- C8 witness: the two iteration orders of the map
`{alpha → "first", beta → "second"}` serialize identically. -/
theorem c8_witness :
    tomlOfStringMap [("beta", .str "second"), ("alpha", .str "first")]
      = tomlOfStringMap [("alpha", .str "first"), ("beta", .str "second")] :=
  c8_deterministic_rendering.2.2 _ _
    (List.Perm.swap ("alpha", TomlValue.str "first") ("beta", TomlValue.str "second") [])
    (by decide)

/-- C9: when a section field's nested type carries its own type-level doc
lines, they are emitted directly after the `[path]` header and before the
nested fields, because the nested `_render` body begins with the nested
struct's doc lines. -/
theorem c9_nested_type_docs_after_header (sdne : Bool) (pfx : String) (fs : Bool)
    (name : String) (fdocs sdocs : List String) (ty : RustTy)
    (sfields : List StructField) (hty : is_section_type ty = true) :
    renderField sdne pfx fs (.mk name fdocs ty false (.structVal (.mk sdocs sfields))) =
      ((if !fs || sdne then "\n" else "") ++ emit_docs fdocs ++ "[" ++ secName pfx name
          ++ "]\n"
          ++ (emit_docs sdocs
            ++ renderFields (!sdocs.isEmpty) (secName pfx name) true sfields),
        false) := by
  rw [renderField_section sdne pfx fs name fdocs ty _ hty]
  simp only [renderStruct]

/-- C9 witness: a nested type documented `Server settings` puts that comment
right after `[server]` and before `port = 8080`. -/
theorem c9_witness :
    renderField false "" true (.mk "server" [] (.path "ServerConfig" false) false
        (.structVal (.mk [" Server settings"]
          [.mk "port" [] (.path "u16" false) false (.val (.int 8080))]))) =
      ("[server]\n# Server settings\nport = 8080\n", false) := by
  rw [c9_nested_type_docs_after_header false "" true "server" [] [" Server settings"]
      (.path "ServerConfig" false) [.mk "port" [] (.path "u16" false) false (.val (.int 8080))]
      (by decide)]
  decide
